import Mathlib

/-!
# To-do list (`src/script.js`): shallow embedding and verified properties

JavaScript strings are modelled by Lean `String`s (sequences of Unicode scalar
values; lone UTF-16 surrogates are outside the model).  The module-level
variable `tasks` and the `localStorage` entry under `STORAGE_KEY` form the
explicit state `App`.  `Date.now()` and the text of `Math.random().toString(36)`
are inputs of `newTask`.
-/

namespace TodoApp

/-! ## Strings -/

/-- Code points removed by `String.prototype.trim`: ECMAScript `WhiteSpace`
and `LineTerminator`. -/
def isTrimChar (c : Char) : Bool :=
  let n := c.toNat
  n = 0x09 || n = 0x0A || n = 0x0B || n = 0x0C || n = 0x0D || n = 0x20 ||
  n = 0xA0 || n = 0x1680 || (0x2000 ≤ n && n ≤ 0x200A) || n = 0x2028 ||
  n = 0x2029 || n = 0x202F || n = 0x205F || n = 0x3000 || n = 0xFEFF

/-- `String.prototype.trimStart` on the character sequence. -/
def trimStartChars (cs : List Char) : List Char :=
  cs.dropWhile isTrimChar

/-- `String.prototype.trimEnd` on the character sequence. -/
def trimEndChars (cs : List Char) : List Char :=
  (cs.reverse.dropWhile isTrimChar).reverse

/-- `String.prototype.trim`: strip white space from both ends. -/
def trim (s : String) : String :=
  ⟨trimEndChars (trimStartChars s.data)⟩

/-- `s.slice(a, b)` for indices `0 ≤ a ≤ b`. -/
def slice (s : String) (a b : Nat) : String :=
  ⟨(s.data.drop a).take (b - a)⟩

/-! ## Data model -/

/-- A task record `{ id, text, completed }`. -/
structure Task where
  id : String
  text : String
  completed : Bool
  deriving DecidableEq, Repr

/-- Application state: the module variable `tasks` and the value stored in
`localStorage` under `STORAGE_KEY` (`none` when the key is absent). -/
structure App where
  tasks : List Task
  storage : Option String
  deriving DecidableEq, Repr

/-! ## Escaping and markup (`escapeHtml`, `createTaskElement`) -/

/-- `str.replace(/c/g, by)` for a one-character pattern. -/
def replaceAllChar (c : Char) (repl : List Char) (cs : List Char) : List Char :=
  cs.flatMap fun x => if x = c then repl else [x]

/-- The function `escapeHtml`: three global replacements, in source order. -/
def escapeHtml (str : String) : String :=
  ⟨replaceAllChar '>' "&gt;".data
    (replaceAllChar '<' "&lt;".data
      (replaceAllChar '&' "&amp;".data str.data))⟩

/-- The text that the three passes of `escapeHtml` put in place of one
character. -/
def escapeChar (c : Char) : List Char :=
  if c = '&' then "&amp;".data
  else if c = '<' then "&lt;".data
  else if c = '>' then "&gt;".data
  else [c]

/-- The text from an ampersand on is one of the three entities. -/
def EntityAt (l : List Char) : Prop :=
  "&amp;".data <+: l ∨ "&lt;".data <+: l ∨ "&gt;".data <+: l

/-- The element built by `createTaskElement`: class name, `data-id` and the
`innerHTML` text assigned to it. -/
structure Element where
  className : String
  dataId : String
  innerHTML : String
  deriving DecidableEq, Repr

/-- The template text of `createTaskElement` up to and including `title="`
of the task-text element. -/
def templateHead (completed : Bool) : String :=
  "\n    <div class=\"task-left\">\n      <label class=\"checkbox\" title=\"Toggle complete\">\n        <input type=\"checkbox\" "
  ++ (if completed then "checked" else "")
  ++ " aria-label=\"Mark task complete\">\n        <svg viewBox=\"0 0 24 24\" width=\"14\" height=\"14\" aria-hidden=\"true\">\n          <path fill=\"currentColor\" d=\"M20.285 6.708L9 18 3.714 12.707l1.571-1.571L9 14.858l9.714-9.714z\"></path>\n        </svg>\n      </label>\n      <div class=\"task-text\" title=\""

/-- The template text of `createTaskElement` after the task text. -/
def templateTail : String :=
  "</div>\n    </div>\n\n    <div class=\"task-actions\" aria-hidden=\"false\">\n      <button class=\"icon-btn btn-delete\" title=\"Delete task\" aria-label=\"Delete task\">\n        <svg width=\"16\" height=\"16\" viewBox=\"0 0 24 24\"><path fill=\"currentColor\" d=\"M9 3h6l1 2h5v2H3V5h5l1-2zM6 8h12l-1 12H7L6 8z\"/></svg>\n      </button>\n    </div>\n  "

/-- The function `createTaskElement`. -/
def createTaskElement (task : Task) : Element :=
  { className := "task-item" ++ (if task.completed then " completed" else "")
    dataId := task.id
    innerHTML :=
      templateHead task.completed ++ escapeHtml task.text ++ "\">" ++
        escapeHtml task.text ++ templateTail }

/-- HTML tokenizer, "attribute value (double-quoted)" state: the value runs up
to the next U+0022; returns the raw value and the input after the closing
quote. -/
def attrValueDoubleQuoted (cs : List Char) : List Char × List Char :=
  (cs.takeWhile (· ≠ '"'), (cs.dropWhile (· ≠ '"')).drop 1)

/-- Decoder for the three entities that `escapeHtml` emits: reads `&amp;`,
`&lt;` and `&gt;` back as `&`, `<` and `>`, and every other character as
itself.  The first argument counts characters of an entity still to be
skipped. -/
def decodeFrom : Nat → List Char → List Char
  | _, [] => []
  | k + 1, _ :: cs => decodeFrom k cs
  | 0, c :: cs =>
    if c = '&' then
      if "amp;".data.isPrefixOf cs then '&' :: decodeFrom 4 cs
      else if "lt;".data.isPrefixOf cs then '<' :: decodeFrom 3 cs
      else if "gt;".data.isPrefixOf cs then '>' :: decodeFrom 3 cs
      else c :: decodeFrom 0 cs
    else c :: decodeFrom 0 cs

/-- Entity decoding of a whole string. -/
def decodeEntities (s : String) : String :=
  ⟨decodeFrom 0 s.data⟩

/-! ## JSON (`JSON.stringify`, `JSON.parse`) -/

/-- Values produced by `JSON.parse`.  A number keeps the text of its literal:
its numeric value plays no role here.  An object lists its properties in
creation order. -/
inductive JSON where
  | null
  | bool (b : Bool)
  | num (lexeme : String)
  | str (s : String)
  | arr (items : List JSON)
  | obj (props : List (String × JSON))

/-- Lower-case hexadecimal digit of a value below 16. -/
def hexDigit (n : Nat) : Char :=
  if n < 10 then Char.ofNat (48 + n) else Char.ofNat (87 + n)

/-- `QuoteJSONString`, one code point: the two-character escapes of the
ECMAScript table, a `\u00XX` escape for the other controls, the character
itself otherwise. -/
def quoteChar (c : Char) : List Char :=
  if c = '"' then ['\\', '"']
  else if c = '\\' then ['\\', '\\']
  else if c.toNat = 8 then ['\\', 'b']
  else if c.toNat = 9 then ['\\', 't']
  else if c.toNat = 10 then ['\\', 'n']
  else if c.toNat = 12 then ['\\', 'f']
  else if c.toNat = 13 then ['\\', 'r']
  else if c.toNat < 32 then
    ['\\', 'u', '0', '0', hexDigit (c.toNat / 16), hexDigit (c.toNat % 16)]
  else [c]

/-- `QuoteJSONString`: the JSON text of a string value. -/
def quoteJSONString (s : String) : List Char :=
  '"' :: (s.data.flatMap quoteChar ++ ['"'])

/-- `JSON.stringify` of one task record: its properties in creation order
`id`, `text`, `completed`. -/
def stringifyTask (t : Task) : List Char :=
  "\x7b\"id\":".data ++ quoteJSONString t.id ++ ",\"text\":".data ++
    quoteJSONString t.text ++ ",\"completed\":".data ++
    (if t.completed then "true".data else "false".data) ++ "\x7d".data

/-- The elements of a JSON array text, separated by commas. -/
def stringifyElements : List Task → List Char
  | [] => []
  | [t] => stringifyTask t
  | t :: ts => stringifyTask t ++ ',' :: stringifyElements ts

/-- `JSON.stringify(tasks)` for an array of task records. -/
def stringifyTasks (tasks : List Task) : String :=
  ⟨'[' :: (stringifyElements tasks ++ [']'])⟩

/-- JSON white space. -/
def isJsonWs (c : Char) : Bool :=
  c = ' ' || c.toNat = 9 || c.toNat = 10 || c.toNat = 13

/-- Skip JSON white space. -/
def skipWs (cs : List Char) : List Char :=
  cs.dropWhile isJsonWs

/-- Value of a hexadecimal digit. -/
def hexVal (c : Char) : Option Nat :=
  let n := c.toNat
  if 48 ≤ n ∧ n ≤ 57 then some (n - 48)
  else if 97 ≤ n ∧ n ≤ 102 then some (n - 87)
  else if 65 ≤ n ∧ n ≤ 70 then some (n - 55)
  else none

/-- Value of four hexadecimal digits. -/
def hex4 (a b c d : Char) : Option Nat :=
  match hexVal a, hexVal b, hexVal c, hexVal d with
  | some x, some y, some z, some w => some (((x * 16 + y) * 16 + z) * 16 + w)
  | _, _, _, _ => none

/-- The character named by a two-character escape. -/
def unescape (e : Char) : Option Char :=
  if e = '"' then some '"'
  else if e = '\\' then some '\\'
  else if e = '/' then some '/'
  else if e = 'b' then some (Char.ofNat 8)
  else if e = 't' then some (Char.ofNat 9)
  else if e = 'n' then some (Char.ofNat 10)
  else if e = 'f' then some (Char.ofNat 12)
  else if e = 'r' then some (Char.ofNat 13)
  else none

/-- Put decoded characters in front of the result of reading the rest of
a string. -/
def prependTo (pre : List Char) : Option (List Char × List Char) → Option (List Char × List Char)
  | some (s, rest) => some (pre ++ s, rest)
  | none => none

/-- Body of a JSON string, after the opening quote: the decoded characters
and the input after the closing quote.  The first argument holds an escaped
high surrogate (U+D800 to U+DBFF) read just before: followed by an escaped
low surrogate (U+DC00 to U+DFFF) it gives the one code point of the pair.  An
escaped surrogate without its partner, which a `String` here cannot hold, is
read as U+FFFD. -/
def parseStrFrom : Option Nat → List Char → Option (List Char × List Char)
  | _, [] => none
  | hi, c :: r =>
    let lone : List Char := if hi.isSome then [Char.ofNat 0xFFFD] else []
    if c = '"' then some (lone, r)
    else if c = '\\' then
      match r with
      | [] => none
      | e :: r2 =>
        if e = 'u' then
          match r2 with
          | a :: b :: x :: d :: r3 =>
            match hex4 a b x d with
            | none => none
            | some n =>
              if 0xD800 ≤ n ∧ n ≤ 0xDBFF then prependTo lone (parseStrFrom (some n) r3)
              else if 0xDC00 ≤ n ∧ n ≤ 0xDFFF then
                match hi with
                | some h =>
                  prependTo [Char.ofNat (0x10000 + (h - 0xD800) * 0x400 + (n - 0xDC00))]
                    (parseStrFrom none r3)
                | none => prependTo [Char.ofNat 0xFFFD] (parseStrFrom none r3)
              else prependTo (lone ++ [Char.ofNat n]) (parseStrFrom none r3)
          | _ => none
        else
          match unescape e with
          | some x => prependTo (lone ++ [x]) (parseStrFrom none r2)
          | none => none
    else if c.toNat < 32 then none
    else prependTo (lone ++ [c]) (parseStrFrom none r)

/-- Body of a JSON string, after the opening quote. -/
def parseStr (cs : List Char) : Option (List Char × List Char) :=
  parseStrFrom none cs

/-- Value of a list of decimal digit characters. -/
def digitsValue (cs : List Char) : Nat :=
  cs.foldl (fun acc c => acc * 10 + (c.toNat - 48)) 0

/-- Decimal digit test. -/
def isDigit (c : Char) : Bool :=
  decide (48 ≤ c.toNat ∧ c.toNat ≤ 57)

/-- A non-empty run of decimal digits. -/
def digits1 (cs : List Char) : Option (List Char × List Char) :=
  match cs.span isDigit with
  | ([], _) => none
  | (ds, r) => some (ds, r)

/-- A JSON number literal: optional minus, integer part without a leading
zero, optional fraction, optional exponent.  Returns the literal. -/
def parseNumber (cs : List Char) : Option (List Char × List Char) :=
  let (sign, r0) :=
    match cs with
    | c :: r => if c = '-' then (['-'], r) else ([], cs)
    | [] => ([], cs)
  let intPart :=
    match r0 with
    | c :: r => if c = '0' then some (['0'], r) else digits1 r0
    | [] => none
  match intPart with
  | none => none
  | some (ip, r1) =>
    let frac :=
      match r1 with
      | c :: r => if c = '.' then (digits1 r).map fun (x : List Char × List Char) => ('.' :: x.1, x.2) else some ([], r1)
      | [] => some ([], r1)
    match frac with
    | none => none
    | some (fp, r2) =>
      let expo :=
        match r2 with
        | c :: r =>
          if c = 'e' ∨ c = 'E' then
            match r with
            | s :: r3 =>
              if s = '+' ∨ s = '-' then (digits1 r3).map fun (x : List Char × List Char) => (c :: s :: x.1, x.2)
              else (digits1 r).map fun (x : List Char × List Char) => (c :: x.1, x.2)
            | [] => none
          else some ([], r2)
        | [] => some ([], r2)
      match expo with
      | none => none
      | some (ep, r3) => some (sign ++ ip ++ fp ++ ep, r3)

/-- Define a property on an object under construction: a repeated key keeps
its place and takes the later value. -/
def setProp (k : String) (v : JSON) : List (String × JSON) → List (String × JSON)
  | [] => [(k, v)]
  | (k2, v2) :: ps => if k2 = k then (k, v) :: ps else (k2, v2) :: setProp k v ps

/-- The number a property key denotes when it is an array index: a
canonical decimal text (no leading zero) of a value below `2^32 - 1`. -/
def arrayIndex (k : String) : Option Nat :=
  match k.data with
  | [] => none
  | c :: cs =>
    if (c :: cs).all isDigit && (c ≠ '0' || cs.isEmpty) &&
        decide (digitsValue (c :: cs) < 4294967295) then
      some (digitsValue (c :: cs))
    else none

/-- Insert an index property into a list ordered by ascending index. -/
def insertIndexed (p : Nat × String × JSON) : List (Nat × String × JSON) → List (Nat × String × JSON)
  | [] => [p]
  | q :: qs => if p.1 ≤ q.1 then p :: q :: qs else q :: insertIndexed p qs

/-- Property order of an ordinary object: array-index keys in ascending
numeric order, then the other keys in creation order. -/
def orderProps (props : List (String × JSON)) : List (String × JSON) :=
  ((props.filterMap fun p => (arrayIndex p.1).map fun n => (n, p.1, p.2)).foldr
      insertIndexed []).map (fun q => q.2) ++
    props.filter fun p => (arrayIndex p.1).isNone

/-- The properties of the object a member list denotes: each member defines
its property in turn, and the keys are listed in property order. -/
def buildProps (members : List (String × JSON)) : List (String × JSON) :=
  orderProps (members.foldl (fun ps m => setProp m.1 m.2 ps) [])

mutual
/-- Recursive-descent reader of one JSON value; the first argument bounds the
number of nested calls. -/
def parseValue : Nat → List Char → Option (JSON × List Char)
  | 0, _ => none
  | fuel + 1, cs =>
    match skipWs cs with
    | [] => none
    | c :: r =>
      if c = '\x7b' then
        match skipWs r with
        | [] => none
        | c2 :: r2 =>
          if c2 = '\x7d' then some (JSON.obj [], r2)
          else
            match parseMembers fuel (c2 :: r2) with
            | some (ms, rest) => some (JSON.obj (buildProps ms), rest)
            | none => none
      else if c = '[' then
        match skipWs r with
        | [] => none
        | c2 :: r2 =>
          if c2 = ']' then some (JSON.arr [], r2)
          else
            match parseElements fuel (c2 :: r2) with
            | some (vs, rest) => some (JSON.arr vs, rest)
            | none => none
      else if c = '"' then
        match parseStr r with
        | some (s, rest) => some (JSON.str ⟨s⟩, rest)
        | none => none
      else if c = 't' then
        if "rue".data.isPrefixOf r then some (JSON.bool true, r.drop 3) else none
      else if c = 'f' then
        if "alse".data.isPrefixOf r then some (JSON.bool false, r.drop 4) else none
      else if c = 'n' then
        if "ull".data.isPrefixOf r then some (JSON.null, r.drop 3) else none
      else
        match parseNumber (c :: r) with
        | some (lx, rest) => some (JSON.num ⟨lx⟩, rest)
        | none => none
/-- The elements of an array, from the first element to the closing
bracket. -/
def parseElements : Nat → List Char → Option (List JSON × List Char)
  | 0, _ => none
  | fuel + 1, cs =>
    match parseValue fuel cs with
    | none => none
    | some (v, r) =>
      match skipWs r with
      | [] => none
      | c :: r2 =>
        if c = ',' then
          match parseElements fuel r2 with
          | some (vs, rest) => some (v :: vs, rest)
          | none => none
        else if c = ']' then some ([v], r2)
        else none
/-- The members of an object, from the first key to the closing brace. -/
def parseMembers : Nat → List Char → Option (List (String × JSON) × List Char)
  | 0, _ => none
  | fuel + 1, cs =>
    match skipWs cs with
    | [] => none
    | q :: r0 =>
      if q = '"' then
        match parseStr r0 with
        | none => none
        | some (k, r1) =>
          match skipWs r1 with
          | [] => none
          | c1 :: r2 =>
            if c1 = ':' then
              match parseValue fuel r2 with
              | none => none
              | some (v, r3) =>
                match skipWs r3 with
                | [] => none
                | c3 :: r4 =>
                  if c3 = ',' then
                    match parseMembers fuel r4 with
                    | some (ms, rest) => some ((⟨k⟩, v) :: ms, rest)
                    | none => none
                  else if c3 = '\x7d' then some ([(⟨k⟩, v)], r4)
                  else none
            else none
      else none
end

/-- `JSON.parse`: one value surrounded by optional white space; `none` stands
for the `SyntaxError` it throws.  The bound on nested calls is twice the
length of the text plus two; `parse_stringifyTasks` shows it suffices for
every stored task array. -/
def JSON.parse (text : String) : Option JSON :=
  match parseValue (2 * text.length + 2) text.data with
  | some (v, rest) => if skipWs rest = [] then some v else none
  | none => none

/-- The record as the object `JSON.parse` builds for it. -/
def taskToJSON (t : Task) : JSON :=
  JSON.obj [("id", JSON.str t.id), ("text", JSON.str t.text), ("completed", JSON.bool t.completed)]

/-- A task collection as a JavaScript value: an array of task objects. -/
def tasksToJSON (tasks : List Task) : JSON :=
  JSON.arr (tasks.map taskToJSON)

/-! ## Persistence (`loadTasks`, `saveTasks`) -/

/-- The function `loadTasks`: the stored text is read; an absent key or an
empty text (`raw` falsy) gives `[]`, otherwise the result of `JSON.parse`,
and `[]` when `JSON.parse` throws. -/
def loadTasks (storage : Option String) : JSON :=
  match storage with
  | none => JSON.arr []
  | some raw =>
    if raw = "" then JSON.arr []
    else
      match JSON.parse raw with
      | some v => v
      | none => JSON.arr []

/-- The function `saveTasks`: overwrite the stored text with
`JSON.stringify(tasks)`. -/
def saveTasks (tasks : List Task) : Option String :=
  some (stringifyTasks tasks)

/-! ## Task operations and event handlers -/

/-- The function `newTask`; `now` is the value of `Date.now()` and `rnd` the
text of `Math.random().toString(36)`. -/
def newTask (now : Nat) (rnd : String) (text : String) : Task :=
  { id := toString now ++ slice rnd 2 6
    text := trim text
    completed := false }

/-- The function `addTaskFromInput`: the returned flag and the state after
the call. -/
def addTaskFromInput (now : Nat) (rnd : String) (text : String) (app : App) : Bool × App :=
  let trimmed := trim text
  if trimmed = "" then (false, app)
  else
    let tasks := newTask now rnd trimmed :: app.tasks
    (true, { tasks := tasks, storage := saveTasks tasks })

/-- Toggle: `tasks.map(t => t.id === id ? { ...t, completed: !t.completed } : t)`. -/
def toggle (id : String) (tasks : List Task) : List Task :=
  tasks.map fun t => if t.id = id then { t with completed := !t.completed } else t

/-- Remove: `tasks.filter(t => t.id !== id)`. -/
def remove (id : String) (tasks : List Task) : List Task :=
  tasks.filter fun t => t.id ≠ id

/-- Clear completed: `tasks.filter(t => !t.completed)`. -/
def clearCompleted (tasks : List Task) : List Task :=
  tasks.filter fun t => !t.completed

/-- Replace the text: `tasks.map(t => t.id === id ? { ...t, text: newVal } : t)`. -/
def replaceText (id : String) (newVal : String) (tasks : List Task) : List Task :=
  tasks.map fun t => if t.id = id then { t with text := newVal } else t

/-- Click on a checkbox of the row `id`. -/
def onToggleClick (id : String) (app : App) : App :=
  let tasks := toggle id app.tasks
  { tasks := tasks, storage := saveTasks tasks }

/-- Click on the delete button of the row `id`. -/
def onDeleteClick (id : String) (app : App) : App :=
  let tasks := remove id app.tasks
  { tasks := tasks, storage := saveTasks tasks }

/-- Click on "clear completed". -/
def onClearCompleted (app : App) : App :=
  let tasks := clearCompleted app.tasks
  { tasks := tasks, storage := saveTasks tasks }

/-- Click on "clear all"; `confirmed` is the answer of `confirm`. -/
def onClearAll (confirmed : Bool) (app : App) : App :=
  if !confirmed then app
  else { tasks := [], storage := saveTasks [] }

/-- The closure `finish` of an edit session on the row `id`, run with the
field holding `value`: commit the trimmed text when it is not empty. -/
def finish (id : String) (value : String) (app : App) : App :=
  let newVal := trim value
  if newVal = "" then app
  else
    let tasks := replaceText id newVal app.tasks
    { tasks := tasks, storage := saveTasks tasks }

/-- An operation on the task store. -/
inductive Op where
  | add (now : Nat) (rnd : String) (text : String)
  | toggle (id : String)
  | setText (id : String) (text : String)
  | remove (id : String)
  | clearCompleted
  | clearAll (confirmed : Bool)
  deriving DecidableEq, Repr

/-- One operation applied to the state. -/
def step (app : App) : Op → App
  | .add now rnd text => (addTaskFromInput now rnd text app).2
  | .toggle id => onToggleClick id app
  | .setText id text => finish id text app
  | .remove id => onDeleteClick id app
  | .clearCompleted => onClearCompleted app
  | .clearAll confirmed => onClearAll confirmed app

/-- A sequence of operations applied in order. -/
def run (app : App) (ops : List Op) : App :=
  ops.foldl step app

/-- The state before anything was stored or added. -/
def emptyApp : App :=
  { tasks := [], storage := none }

/-- Whether the operation goes through a path that stores the collection:
an add with non-blank text, a confirmed clear-all, an edit commit with
non-blank text, and every toggle, remove and clear-completed. -/
def Op.mutates : Op → Bool
  | .add _ _ text => trim text ≠ ""
  | .setText _ text => trim text ≠ ""
  | .clearAll confirmed => confirmed
  | _ => true

/-- The clock reading and the random slice (`slice(2,6)` of the random text)
that an add operation hands to `newTask`, when it adds a record. -/
def Op.addKey : Op → Option (Nat × String)
  | .add now rnd text => if trim text = "" then none else some (now, slice rnd 2 6)
  | _ => none

/-- The clock readings and random slices of the adds of a sequence that add
a record, in order. -/
def addKeys (ops : List Op) : List (Nat × String) :=
  ops.filterMap Op.addKey

/-- Two (clock reading, random slice) pairs are different, and the decimal
texts of the clock readings have the same length or the slices have the same
length. -/
def separated (a b : Nat × String) : Bool :=
  decide (a ≠ b) &&
    (decide ((toString a.1).length = (toString b.1).length) ||
      decide (a.2.length = b.2.length))

/-- A sequence of `addTaskFromInput` calls, each with its clock reading,
random text and raw input: the returned flags and the final state. -/
def runAdds (app : App) : List (Nat × String × String) → List Bool × App
  | [] => ([], app)
  | (now, rnd, text) :: calls =>
    let r := addTaskFromInput now rnd text app
    let rs := runAdds r.2 calls
    (r.1 :: rs.1, rs.2)

/-! ## Inline edit session (`dblclick` handler) -/

/-- The edit field of an open session: the row it edits, its content, whether
it has focus, and whether the `once` blur listener is still attached. -/
structure EditField where
  id : String
  value : String
  focused : Bool
  blurListener : Bool
  deriving DecidableEq, Repr

/-- Events delivered to the edit field. -/
inductive EditEvent where
  | input (value : String)
  | enter
  | escape
  | blur
  deriving DecidableEq, Repr

/-- The `dblclick` handler on the text of row `id`: no session when no record
has the id, else a focused field holding the current text with the blur
listener attached. -/
def openEdit (id : String) (app : App) : Option EditField :=
  match app.tasks.find? (fun t => t.id = id) with
  | none => none
  | some current => some { id := id, value := current.text, focused := true, blurListener := true }

/-- Delivery of a blur event to the field: the `once` listener runs
`finish` and is detached. -/
def deliverBlur (s : EditField × App) : EditField × App :=
  if s.1.blurListener then
    ({ s.1 with focused := false, blurListener := false }, finish s.1.id s.1.value s.2)
  else ({ s.1 with focused := false }, s.2)

/-- One event of an edit session.  Enter calls `input.blur()`, which
dispatches blur when the field has focus.  Escape calls `renderTasks`, which
rebuilds the list without touching the collection and takes the field out of
the document. -/
def editStep (s : EditField × App) : EditEvent → EditField × App
  | .input v => ({ s.1 with value := v }, s.2)
  | .enter => if s.1.focused then deliverBlur s else s
  | .escape => ({ s.1 with focused := false }, s.2)
  | .blur => deliverBlur s

/-- The events of a session delivered in order. -/
def editRun (s : EditField × App) (evs : List EditEvent) : EditField × App :=
  evs.foldl editStep s

/-! ## Lemmas on strings -/

theorem dropWhile_trim_fixed (l : List Char)
    (h : ∀ c, l.head? = some c → isTrimChar c = false) :
    l.dropWhile isTrimChar = l := by
  cases l with
  | nil => rfl
  | cons a t =>
    have ha : isTrimChar a = false := h a rfl
    simp [List.dropWhile, ha]

theorem head_dropWhile_trim (l : List Char) (c : Char)
    (h : (l.dropWhile isTrimChar).head? = some c) : isTrimChar c = false := by
  induction l with
  | nil => simp at h
  | cons a t ih =>
    cases ha : isTrimChar a with
    | true =>
      rw [List.dropWhile_cons_of_pos ha] at h
      exact ih h
    | false =>
      have hn : ¬ isTrimChar a = true := by simp [ha]
      rw [List.dropWhile_cons_of_neg hn] at h
      simp at h
      rw [← h]
      exact ha

theorem trimStartChars_idem (l : List Char) :
    trimStartChars (trimStartChars l) = trimStartChars l :=
  dropWhile_trim_fixed _ (head_dropWhile_trim l)

theorem trimEndChars_idem (l : List Char) :
    trimEndChars (trimEndChars l) = trimEndChars l := by
  unfold trimEndChars
  rw [List.reverse_reverse]
  congr 1
  exact dropWhile_trim_fixed _ (head_dropWhile_trim l.reverse)

theorem trimEndChars_initial (l : List Char) : trimEndChars l <+: l := by
  unfold trimEndChars
  have h : l.reverse.dropWhile isTrimChar <:+ l.reverse := List.dropWhile_suffix _
  have h2 := List.reverse_prefix.mpr h
  simpa using h2

theorem head_of_initial (l m : List Char) (c : Char) (hp : l <+: m)
    (h : l.head? = some c) : m.head? = some c := by
  obtain ⟨t, rfl⟩ := hp
  cases l with
  | nil => simp at h
  | cons a r => simpa using h

theorem trimStart_trimEnd_trimStart (l : List Char) :
    trimStartChars (trimEndChars (trimStartChars l)) = trimEndChars (trimStartChars l) := by
  apply dropWhile_trim_fixed
  intro c hc
  have h := head_of_initial _ _ c (trimEndChars_initial (trimStartChars l)) hc
  exact head_dropWhile_trim l c h

theorem trim_idem (s : String) : trim (trim s) = trim s := by
  unfold trim
  simp only [trimStart_trimEnd_trimStart, trimEndChars_idem]

/-! ## Adding tasks -/

theorem addTaskFromInput_blank (now : Nat) (rnd text : String) (app : App)
    (h : trim text = "") : addTaskFromInput now rnd text app = (false, app) := by
  simp [addTaskFromInput, h]

theorem addTaskFromInput_text (now : Nat) (rnd text : String) (app : App)
    (h : trim text ≠ "") :
    addTaskFromInput now rnd text app =
      (true, { tasks := newTask now rnd (trim text) :: app.tasks,
               storage := saveTasks (newTask now rnd (trim text) :: app.tasks) }) := by
  simp [addTaskFromInput, h]

theorem runAdds_spec (calls : List (Nat × String × String)) (app : App) :
    (runAdds app calls).1 = calls.map (fun c => decide (trim c.2.2 ≠ "")) ∧
    (runAdds app calls).2.tasks.map (fun t => (t.text, t.completed)) =
      ((calls.filter (fun c => decide (trim c.2.2 ≠ ""))).map
        (fun c => (trim c.2.2, false))).reverse ++
        app.tasks.map (fun t => (t.text, t.completed)) := by
  induction calls generalizing app with
  | nil => simp [runAdds]
  | cons c cs ih =>
    obtain ⟨now, rnd, text⟩ := c
    by_cases h : trim text = ""
    · have := ih app
      simp [runAdds, addTaskFromInput_blank now rnd text app h, h, this]
    · have hih := ih ⟨newTask now rnd (trim text) :: app.tasks,
        saveTasks (newTask now rnd (trim text) :: app.tasks)⟩
      obtain ⟨h1, h2⟩ := hih
      have ht : (newTask now rnd (trim text)).text = trim text := by
        simp [newTask, trim_idem]
      have hc : (newTask now rnd (trim text)).completed = false := rfl
      have hd : decide (trim text ≠ "") = true := by simp [h]
      simp only [runAdds, addTaskFromInput_text now rnd text app h, List.map_cons,
        List.filter_cons, hd, h1, h2, ht, hc, if_true, List.reverse_cons, List.append_assoc,
        List.singleton_append, and_self]

/-- C1: for every sequence of `addTaskFromInput` calls on the empty
collection, the returned flags are exactly "text is non-blank", the length of
the collection is the number of non-blank calls, the records are the
non-blank calls in reverse order with the trimmed text and `completed =
false`, and a call with blank text returns false and leaves the state as it
was. -/
theorem C1_add_sequence (calls : List (Nat × String × String)) :
    (runAdds emptyApp calls).1 = calls.map (fun c => decide (trim c.2.2 ≠ "")) ∧
    (runAdds emptyApp calls).2.tasks.length =
      (calls.filter (fun c => decide (trim c.2.2 ≠ ""))).length ∧
    (runAdds emptyApp calls).2.tasks.map (fun t => (t.text, t.completed)) =
      ((calls.filter (fun c => decide (trim c.2.2 ≠ ""))).map
        (fun c => (trim c.2.2, false))).reverse ∧
    (∀ (app : App) (now : Nat) (rnd text : String), trim text = "" →
      addTaskFromInput now rnd text app = (false, app)) := by
  have h := runAdds_spec calls emptyApp
  have h2 : (runAdds emptyApp calls).2.tasks.map (fun t => (t.text, t.completed)) =
      ((calls.filter (fun c => decide (trim c.2.2 ≠ ""))).map
        (fun c => (trim c.2.2, false))).reverse := by
    simpa [emptyApp] using h.2
  refine ⟨h.1, ?_, h2, fun app now rnd text ht => addTaskFromInput_blank now rnd text app ht⟩
  have h3 := congrArg List.length h2
  simpa using h3

/-- C1 at three calls, the second one blank. -/
theorem C1_add_sequence_witness :
    (runAdds emptyApp [(7, "0.k3x9zq", " A "), (8, "0.5", " \t"), (9, "0.zz", "B")]).1
      = [true, false, true] ∧
    (runAdds emptyApp [(7, "0.k3x9zq", " A "), (8, "0.5", " \t"), (9, "0.zz", "B")]).2.tasks.map
      (fun t => (t.text, t.completed)) = [("B", false), ("A", false)] ∧
    addTaskFromInput 8 "0.5" " \t" emptyApp = (false, emptyApp) := by
  have h := C1_add_sequence [(7, "0.k3x9zq", " A "), (8, "0.5", " \t"), (9, "0.zz", "B")]
  refine ⟨?_, ?_, h.2.2.2 emptyApp 8 "0.5" " \t" (by decide)⟩
  · rw [h.1]; decide
  · rw [h.2.2.1]; decide

/-! ## Toggle, remove, edit commit, clear completed -/

theorem toggle_toggle (id : String) (tasks : List Task) :
    toggle id (toggle id tasks) = tasks := by
  unfold toggle
  rw [List.map_map]
  conv_rhs => rw [← List.map_id tasks]
  apply List.map_congr_left
  intro t _
  obtain ⟨i, x, c⟩ := t
  by_cases h : i = id <;> simp [h]

theorem toggle_getElem? (id : String) (tasks : List Task) (i : Nat) (t : Task)
    (h : tasks[i]? = some t) :
    ∃ u, (toggle id tasks)[i]? = some u ∧ u.id = t.id ∧ u.text = t.text ∧
      u.completed = (if t.id = id then !t.completed else t.completed) := by
  refine ⟨if t.id = id then { t with completed := !t.completed } else t, ?_, ?_, ?_, ?_⟩
  · simp [toggle, h]
  · split <;> rfl
  · split <;> rfl
  · split <;> rfl

/-- C8: toggling the same id twice in a row gives back the original
collection, on the list of records and through the click handler; a single
toggle keeps the length, and at every position keeps id and text and flips
`completed` exactly when the record has the id. -/
theorem C8_toggle_twice (app : App) (id : String) :
    toggle id (toggle id app.tasks) = app.tasks ∧
    (onToggleClick id (onToggleClick id app)).tasks = app.tasks ∧
    (onToggleClick id app).tasks.length = app.tasks.length ∧
    (∀ (i : Nat) (t : Task), app.tasks[i]? = some t →
      ∃ u, (onToggleClick id app).tasks[i]? = some u ∧ u.id = t.id ∧ u.text = t.text ∧
        u.completed = (if t.id = id then !t.completed else t.completed)) := by
  refine ⟨toggle_toggle id app.tasks, toggle_toggle id app.tasks, ?_, ?_⟩
  · simp [onToggleClick, toggle]
  · intro i t h
    exact toggle_getElem? id app.tasks i t h

/-- C8 on a two-record collection, toggling the second record. -/
theorem C8_toggle_twice_witness :
    (onToggleClick "b" (onToggleClick "b"
        ⟨[⟨"a", "x", false⟩, ⟨"b", "y", true⟩], none⟩)).tasks
      = [⟨"a", "x", false⟩, ⟨"b", "y", true⟩] ∧
    ∃ u, (onToggleClick "b" ⟨[⟨"a", "x", false⟩, ⟨"b", "y", true⟩], none⟩).tasks[1]? = some u ∧
      u.id = "b" ∧ u.text = "y" ∧ u.completed = false := by
  have h := C8_toggle_twice ⟨[⟨"a", "x", false⟩, ⟨"b", "y", true⟩], none⟩ "b"
  refine ⟨h.2.1, ?_⟩
  obtain ⟨u, h1, h2, h3, h4⟩ := h.2.2.2 1 ⟨"b", "y", true⟩ (by decide)
  exact ⟨u, h1, h2, h3, by simpa using h4⟩

theorem toggle_absent (id : String) (tasks : List Task) (h : id ∉ tasks.map Task.id) :
    toggle id tasks = tasks := by
  induction tasks with
  | nil => rfl
  | cons t ts ih =>
    simp only [List.map_cons, List.mem_cons, not_or] at h
    have ht : ¬ t.id = id := fun e => h.1 e.symm
    have ih2 : List.map (fun t => if t.id = id then { t with completed := !t.completed } else t)
        ts = ts := ih h.2
    simp [toggle, ht, ih2]

theorem replaceText_absent (id newVal : String) (tasks : List Task)
    (h : id ∉ tasks.map Task.id) : replaceText id newVal tasks = tasks := by
  induction tasks with
  | nil => rfl
  | cons t ts ih =>
    simp only [List.map_cons, List.mem_cons, not_or] at h
    have ht : ¬ t.id = id := fun e => h.1 e.symm
    have ih2 : List.map (fun t => if t.id = id then { t with text := newVal } else t)
        ts = ts := ih h.2
    simp [replaceText, ht, ih2]

theorem remove_absent (id : String) (tasks : List Task) (h : id ∉ tasks.map Task.id) :
    remove id tasks = tasks := by
  unfold remove
  rw [List.filter_eq_self]
  intro t ht
  have : t.id ≠ id := by
    intro e
    exact h (List.mem_map.mpr ⟨t, ht, e⟩)
  simpa using this

theorem remove_remove (id : String) (tasks : List Task) :
    remove id (remove id tasks) = remove id tasks := by
  unfold remove
  rw [List.filter_filter]
  simp

/-- C9: when no record has the id, toggle, edit commit (with any text) and
remove leave the collection as it is, and a double click on such a row opens
no edit session; removing the same id a second time changes nothing.  All
handlers are total functions, so none raises an error. -/
theorem C9_absent_id_noop (app : App) (id : String) (h : id ∉ app.tasks.map Task.id) :
    (step app (.toggle id)).tasks = app.tasks ∧
    (∀ text, (step app (.setText id text)).tasks = app.tasks) ∧
    (step app (.remove id)).tasks = app.tasks ∧
    openEdit id app = none ∧
    (∀ (a : App) (j : String),
      (step (step a (.remove j)) (.remove j)).tasks = (step a (.remove j)).tasks) := by
  refine ⟨toggle_absent id app.tasks h, ?_, remove_absent id app.tasks h, ?_, ?_⟩
  · intro text
    by_cases ht : trim text = ""
    · simp [step, finish, ht]
    · simp [step, finish, ht, replaceText_absent id (trim text) app.tasks h]
  · have hf : app.tasks.find? (fun t => decide (t.id = id)) = none := by
      rw [List.find?_eq_none]
      intro t ht e
      have e2 : t.id = id := by simpa using e
      exact h (List.mem_map.mpr ⟨t, ht, e2⟩)
    simp [openEdit, hf]
  · intro a j
    exact remove_remove j a.tasks

/-- C9 on a one-record collection and an id that is not its id. -/
theorem C9_absent_id_noop_witness :
    "zz" ∉ (App.mk [⟨"a", "x", false⟩] none).tasks.map Task.id ∧
    (step ⟨[⟨"a", "x", false⟩], none⟩ (.toggle "zz")).tasks = [⟨"a", "x", false⟩] ∧
    (step ⟨[⟨"a", "x", false⟩], none⟩ (.setText "zz" "new")).tasks = [⟨"a", "x", false⟩] ∧
    (step ⟨[⟨"a", "x", false⟩], none⟩ (.remove "zz")).tasks = [⟨"a", "x", false⟩] :=
  have h := C9_absent_id_noop ⟨[⟨"a", "x", false⟩], none⟩ "zz" (by decide)
  ⟨by decide, h.1, h.2.1 "new", h.2.2.1⟩

theorem clearCompleted_count (tasks : List Task) (t : Task) (h : t.completed = false) :
    (clearCompleted tasks).count t = tasks.count t := by
  unfold clearCompleted
  rw [List.count_filter]
  simp [h]

/-- C10: clear-completed keeps the records in their order (the result is a
sublist), every kept record has `completed = false`, every record with
`completed = false` is kept as often as it occurred, and a second
clear-completed gives the same collection as the first. -/
theorem C10_clearCompleted (app : App) :
    (step app .clearCompleted).tasks.Sublist app.tasks ∧
    (∀ t ∈ (step app .clearCompleted).tasks, t.completed = false) ∧
    (∀ t : Task, t.completed = false →
      (step app .clearCompleted).tasks.count t = app.tasks.count t) ∧
    (step (step app .clearCompleted) .clearCompleted).tasks
      = (step app .clearCompleted).tasks := by
  refine ⟨List.filter_sublist _, ?_, ?_, ?_⟩
  · intro t ht
    have := (List.mem_filter.mp ht).2
    simpa using this
  · intro t ht
    exact clearCompleted_count app.tasks t ht
  · show clearCompleted (clearCompleted app.tasks) = clearCompleted app.tasks
    unfold clearCompleted
    rw [List.filter_filter]
    simp

/-- C10 on a collection with one completed record between two active ones. -/
theorem C10_clearCompleted_witness :
    (step ⟨[⟨"a", "x", false⟩, ⟨"b", "y", true⟩, ⟨"c", "z", false⟩], none⟩ .clearCompleted).tasks.count
      ⟨"c", "z", false⟩ = 1 ∧
    (∀ t ∈ (step ⟨[⟨"a", "x", false⟩, ⟨"b", "y", true⟩, ⟨"c", "z", false⟩], none⟩
      .clearCompleted).tasks, t.completed = false) := by
  have h := C10_clearCompleted ⟨[⟨"a", "x", false⟩, ⟨"b", "y", true⟩, ⟨"c", "z", false⟩], none⟩
  refine ⟨?_, h.2.1⟩
  rw [h.2.2.1 ⟨"c", "z", false⟩ rfl]
  decide

/-! ## Uniqueness of ids -/

theorem ids_toggle (id : String) (tasks : List Task) :
    (toggle id tasks).map Task.id = tasks.map Task.id := by
  unfold toggle
  rw [List.map_map]
  apply List.map_congr_left
  intro t _
  by_cases h : t.id = id <;> simp [h]

theorem ids_replaceText (id newVal : String) (tasks : List Task) :
    (replaceText id newVal tasks).map Task.id = tasks.map Task.id := by
  unfold replaceText
  rw [List.map_map]
  apply List.map_congr_left
  intro t _
  by_cases h : t.id = id <;> simp [h]

theorem digitChar_value : ∀ k : Nat, k < 10 → (Nat.digitChar k).toNat - 48 = k := by
  decide

theorem foldl_toDigitsCore (fuel n : Nat) (ds : List Char) (h : n < fuel) :
    (Nat.toDigitsCore 10 fuel n ds).foldl (fun acc c => acc * 10 + (c.toNat - 48)) 0
      = ds.foldl (fun acc c => acc * 10 + (c.toNat - 48)) n := by
  induction fuel generalizing n ds with
  | zero => omega
  | succ fuel ih =>
    have hd := digitChar_value (n % 10) (Nat.mod_lt n (by decide))
    by_cases h0 : n / 10 = 0
    · have hn : n % 10 = n := Nat.mod_eq_of_lt (by omega)
      rw [hn] at hd
      simp only [Nat.toDigitsCore, h0, if_true, List.foldl_cons, hn, hd, Nat.zero_mul,
        Nat.zero_add]
    · have hlt : n / 10 < fuel := by omega
      have hv : n / 10 * 10 + n % 10 = n := by omega
      simp only [Nat.toDigitsCore, h0, if_false]
      rw [ih (n / 10) _ hlt]
      simp only [List.foldl_cons, hd, hv]

theorem digitsValue_toString (n : Nat) : digitsValue (toString n).data = n := by
  show digitsValue (Nat.toDigitsCore 10 (n + 1) n []) = n
  unfold digitsValue
  rw [foldl_toDigitsCore (n + 1) n [] (by omega)]
  rfl

theorem toString_nat_injective (m n : Nat) (h : toString m = toString n) : m = n := by
  have h2 := congrArg (fun s => digitsValue s.data) h
  simpa [digitsValue_toString] using h2

theorem id_eq_imp (a b : Nat × String)
    (hl : (toString a.1).length = (toString b.1).length ∨ a.2.length = b.2.length)
    (h : toString a.1 ++ a.2 = toString b.1 ++ b.2) : a = b := by
  have hd : (toString a.1).data ++ a.2.data = (toString b.1).data ++ b.2.data := by
    have := congrArg String.data h
    simpa using this
  have hp : (toString a.1).data = (toString b.1).data ∧ a.2.data = b.2.data := by
    cases hl with
    | inl h1 => exact List.append_inj hd h1
    | inr h2 => exact List.append_inj' hd h2
  have h1 : a.1 = b.1 := toString_nat_injective _ _ (String.ext hp.1)
  have h2 : a.2 = b.2 := String.ext hp.2
  exact Prod.ext h1 h2

theorem separated_ids_ne (a b : Nat × String) (h : separated a b = true) :
    toString a.1 ++ a.2 ≠ toString b.1 ++ b.2 := by
  simp only [separated, Bool.and_eq_true, Bool.or_eq_true, decide_eq_true_eq] at h
  intro e
  exact h.1 (id_eq_imp a b h.2 e)

theorem same_clock_ids (now : Nat) (r1 r2 t1 t2 : String) :
    (newTask now r1 t1).id = (newTask now r2 t2).id ↔ slice r1 2 6 = slice r2 2 6 := by
  constructor
  · intro h
    have := id_eq_imp (now, slice r1 2 6) (now, slice r2 2 6) (Or.inl rfl) h
    exact (Prod.ext_iff.mp this).2
  · intro h
    simp [newTask, h]

theorem step_ids_sublist (app : App) (op : Op) (keys : List (Nat × String))
    (h : (app.tasks.map Task.id).Sublist
      ((keys.map fun k => toString k.1 ++ k.2).reverse)) :
    ((step app op).tasks.map Task.id).Sublist
      (((keys ++ op.addKey.toList).map fun k => toString k.1 ++ k.2).reverse) := by
  cases op with
  | add now rnd text =>
    by_cases ht : trim text = ""
    · simpa [step, addTaskFromInput, Op.addKey, ht] using h
    · have hid : (newTask now rnd (trim text)).id = toString now ++ slice rnd 2 6 := rfl
      simp only [step, addTaskFromInput, Op.addKey, ht, if_false, List.map_cons, hid,
        Option.toList, List.map_append, List.map_nil, List.reverse_append, List.reverse_cons,
        List.reverse_nil, List.nil_append, List.singleton_append]
      exact h.cons₂ _
  | toggle id =>
    show ((toggle id app.tasks).map Task.id).Sublist _
    rw [ids_toggle]
    simpa [Op.addKey] using h
  | setText id text =>
    by_cases ht : trim text = ""
    · simpa [step, finish, Op.addKey, ht] using h
    · show ((finish id text app).tasks.map Task.id).Sublist _
      simp only [finish, ht, if_false, ids_replaceText]
      simpa [Op.addKey] using h
  | remove id =>
    have h1 : ((remove id app.tasks).map Task.id).Sublist (app.tasks.map Task.id) :=
      (List.filter_sublist _).map Task.id
    simpa [Op.addKey] using h1.trans h
  | clearCompleted =>
    have h1 : ((clearCompleted app.tasks).map Task.id).Sublist (app.tasks.map Task.id) :=
      (List.filter_sublist _).map Task.id
    simpa [Op.addKey] using h1.trans h
  | clearAll confirmed =>
    cases confirmed
    · simpa [step, onClearAll, Op.addKey] using h
    · simp [step, onClearAll]

theorem run_ids_sublist (ops : List Op) (app : App) (keys : List (Nat × String))
    (h : (app.tasks.map Task.id).Sublist
      ((keys.map fun k => toString k.1 ++ k.2).reverse)) :
    ((run app ops).tasks.map Task.id).Sublist
      (((keys ++ addKeys ops).map fun k => toString k.1 ++ k.2).reverse) := by
  induction ops generalizing app keys with
  | nil => simpa [run, addKeys] using h
  | cons op ops ih =>
    have h2 := ih (step app op) (keys ++ op.addKey.toList) (step_ids_sublist app op keys h)
    have e : keys ++ op.addKey.toList ++ addKeys ops = keys ++ addKeys (op :: ops) := by
      cases hk : op.addKey <;> simp [addKeys, List.filterMap_cons, hk]
    rw [e] at h2
    simpa [run] using h2

/-- C2, as stated, fails: two adds at the same clock reading that receive
the same random text give two records with one id; and two adds with
different clock readings and different random slices can give one id too,
when the clock texts differ in length and so do the slices (clock
170000000000 with slice `9`, clock 1700000000009 with the empty slice). -/
theorem C2_same_clock_same_random_collide :
    ¬ (∀ ops : List Op, ((run emptyApp ops).tasks.map Task.id).Nodup) ∧
    (run emptyApp [.add 1700000000000 "0.k3x9zq" "a",
      .add 1700000000000 "0.k3x9zq" "b"]).tasks.map Task.id
      = ["1700000000000k3x9", "1700000000000k3x9"] ∧
    (run emptyApp [.add 170000000000 "0.9" "a", .add 1700000000009 "0" "b"]).tasks.map Task.id
      = ["1700000000009", "1700000000009"] := by
  refine ⟨?_, by decide, by decide⟩
  intro h
  have h2 := h [.add 1700000000000 "0.k3x9zq" "a", .add 1700000000000 "0.k3x9zq" "b"]
  revert h2
  decide

/-- C2, amended: in every state reached from the empty collection by add,
toggle, edit commit, remove, clear-completed and clear-all, no two records
share an id, provided that any two adds of the sequence that add a record
receive different (clock reading, random slice) pairs whose clock texts have
the same length or whose slices have the same length.  Two adds at the same
clock reading get the same id exactly when their random slices are equal. -/
theorem C2_ids_unique_when_inputs_differ (ops : List Op)
    (h : (addKeys ops).Pairwise fun a b => separated a b = true) :
    ((run emptyApp ops).tasks.map Task.id).Nodup ∧
    (∀ (now : Nat) (r1 r2 t1 t2 : String),
      (newTask now r1 t1).id = (newTask now r2 t2).id ↔ slice r1 2 6 = slice r2 2 6) := by
  refine ⟨?_, same_clock_ids⟩
  have hs := run_ids_sublist ops emptyApp [] (by simp [emptyApp])
  have hn : ((addKeys ops).map fun k => toString k.1 ++ k.2).Nodup :=
    List.Pairwise.map _ (fun a b hab => separated_ids_ne a b hab) h
  rw [List.nil_append] at hs
  exact (List.nodup_reverse.mpr hn).sublist hs

/-- C2 (amended) on two adds at one clock reading with different random
texts and a later add at another clock reading, with a toggle, an edit
commit, a remove and a clear-completed in between. -/
theorem C2_ids_unique_when_inputs_differ_witness :
    ((addKeys [.add 1700000000000 "0.k3x9zq" "a", .add 1700000000000 "0.zz17" "b",
      .toggle "1700000000000k3x9", .setText "1700000000000zz17" "c", .remove "none",
      .add 1700000000001 "0.k3x9zq" "d", .clearCompleted]).Pairwise
        fun a b => separated a b = true) ∧
    ((run emptyApp [.add 1700000000000 "0.k3x9zq" "a", .add 1700000000000 "0.zz17" "b",
      .toggle "1700000000000k3x9", .setText "1700000000000zz17" "c", .remove "none",
      .add 1700000000001 "0.k3x9zq" "d", .clearCompleted]).tasks.map Task.id).Nodup :=
  ⟨by decide, (C2_ids_unique_when_inputs_differ _ (by decide)).1⟩

theorem replaceAllChar_append (c : Char) (r a b : List Char) :
    replaceAllChar c r (a ++ b) = replaceAllChar c r a ++ replaceAllChar c r b := by
  simp [replaceAllChar]

theorem replaceAllChar_cons (c : Char) (r : List Char) (x : Char) (xs : List Char) :
    replaceAllChar c r (x :: xs) = (if x = c then r else [x]) ++ replaceAllChar c r xs := by
  simp [replaceAllChar]

theorem escape_passes (cs : List Char) :
    replaceAllChar '>' "&gt;".data (replaceAllChar '<' "&lt;".data
      (replaceAllChar '&' "&amp;".data cs)) = cs.flatMap escapeChar := by
  induction cs with
  | nil => simp [replaceAllChar]
  | cons x xs ih =>
    rw [replaceAllChar_cons, replaceAllChar_append, replaceAllChar_append, ih]
    simp only [List.flatMap_cons]
    congr 1
    by_cases h1 : x = '&'
    · subst h1; decide
    · by_cases h2 : x = '<'
      · subst h2; decide
      · by_cases h3 : x = '>'
        · subst h3; decide
        · simp [escapeChar, replaceAllChar, h1, h2, h3]

theorem escapeHtml_data (s : String) : (escapeHtml s).data = s.data.flatMap escapeChar := by
  exact escape_passes s.data

theorem escapeChar_no_angle (c x : Char) (h : x ∈ escapeChar c) : x ≠ '<' ∧ x ≠ '>' := by
  unfold escapeChar at h
  split at h
  · revert x; decide
  · split at h
    · revert x; decide
    · split at h
      · revert x; decide
      · simp at h
        subst h
        constructor <;> assumption

theorem escaped_amp_entity (l : List Char) (i : Nat)
    (h : (l.flatMap escapeChar)[i]? = some '&') :
    EntityAt ((l.flatMap escapeChar).drop i) := by
  induction l generalizing i with
  | nil => simp at h
  | cons c cs ih =>
    rw [List.flatMap_cons] at h ⊢
    by_cases h1 : c = '&'
    · have e : escapeChar c = ['&', 'a', 'm', 'p', ';'] := by subst h1; rfl
      rw [e] at h ⊢
      match i, h with
      | 0, _ => exact Or.inl ⟨_, rfl⟩
      | 1, h => simp at h
      | 2, h => simp at h
      | 3, h => simp at h
      | 4, h => simp at h
      | n + 5, h => exact ih n (by simpa using h)
    · by_cases h2 : c = '<'
      · have e : escapeChar c = ['&', 'l', 't', ';'] := by subst h2; rfl
        rw [e] at h ⊢
        match i, h with
        | 0, _ => exact Or.inr (Or.inl ⟨_, rfl⟩)
        | 1, h => simp at h
        | 2, h => simp at h
        | 3, h => simp at h
        | n + 4, h => exact ih n (by simpa using h)
      · by_cases h3 : c = '>'
        · have e : escapeChar c = ['&', 'g', 't', ';'] := by subst h3; rfl
          rw [e] at h ⊢
          match i, h with
          | 0, _ => exact Or.inr (Or.inr ⟨_, rfl⟩)
          | 1, h => simp at h
          | 2, h => simp at h
          | 3, h => simp at h
          | n + 4, h => exact ih n (by simpa using h)
        · have e : escapeChar c = [c] := by simp [escapeChar, h1, h2, h3]
          rw [e] at h ⊢
          match i, h with
          | 0, h => simp at h; exact absurd h h1
          | n + 1, h => exact ih n (by simpa using h)

theorem decodeFrom_escapeChar (c : Char) (rest : List Char) :
    decodeFrom 0 (escapeChar c ++ rest) = c :: decodeFrom 0 rest := by
  by_cases h1 : c = '&'
  · subst h1
    simp [escapeChar, decodeFrom, List.isPrefixOf]
  · by_cases h2 : c = '<'
    · subst h2
      simp [escapeChar, decodeFrom, List.isPrefixOf]
    · by_cases h3 : c = '>'
      · subst h3
        simp [escapeChar, decodeFrom, List.isPrefixOf]
      · simp [escapeChar, decodeFrom, h1, h2, h3]

theorem decodeFrom_escaped (l : List Char) :
    decodeFrom 0 (l.flatMap escapeChar) = l := by
  induction l with
  | nil => simp [decodeFrom]
  | cons c cs ih => rw [List.flatMap_cons, decodeFrom_escapeChar, ih]

/-- C4: for every string, the output of `escapeHtml` has no `<` and no `>`,
every `&` in it starts `&amp;`, `&lt;` or `&gt;`, and decoding these three
entities gives the input back; `<b>hi</b>` becomes `&lt;b&gt;hi&lt;/b&gt;`. -/
theorem C4_escapeHtml (s : String) :
    (∀ x ∈ (escapeHtml s).data, x ≠ '<' ∧ x ≠ '>') ∧
    (∀ i : Nat, (escapeHtml s).data[i]? = some '&' →
      EntityAt ((escapeHtml s).data.drop i)) ∧
    decodeEntities (escapeHtml s) = s ∧
    escapeHtml "<b>hi</b>" = "&lt;b&gt;hi&lt;/b&gt;" := by
  refine ⟨?_, ?_, ?_, by decide⟩
  · intro x hx
    rw [escapeHtml_data, List.mem_flatMap] at hx
    obtain ⟨c, _, hc⟩ := hx
    exact escapeChar_no_angle c x hc
  · intro i hi
    rw [escapeHtml_data] at hi ⊢
    exact escaped_amp_entity s.data i hi
  · unfold decodeEntities
    rw [escapeHtml_data, decodeFrom_escaped]

/-- C4 at the text `<b>hi</b> & co`: the ampersand at position 22 of the
output starts `&amp;`. -/
theorem C4_escapeHtml_witness :
    (escapeHtml "<b>hi</b> & co").data[22]? = some '&' ∧
    EntityAt ((escapeHtml "<b>hi</b> & co").data.drop 22) ∧
    decodeEntities (escapeHtml "<b>hi</b> & co") = "<b>hi</b> & co" :=
  ⟨by decide, (C4_escapeHtml "<b>hi</b> & co").2.1 22 (by decide),
    (C4_escapeHtml "<b>hi</b> & co").2.2.1⟩

/-! ## Markup of a row -/

set_option maxRecDepth 20000 in
/-- C3 at the task text `x" onmouseover="alert(1)`: `escapeHtml` leaves the
double quote as it is, the markup of `createTaskElement` continues the
template head (which ends in `title="`) with the escaped text, and the
attribute value read from there is `x`: the quote of the text ends the
attribute, and the rest of the text follows as further attributes. -/
theorem C3_quote_ends_title_attribute :
    escapeHtml "x\" onmouseover=\"alert(1)" = "x\" onmouseover=\"alert(1)" ∧
    (createTaskElement ⟨"1", "x\" onmouseover=\"alert(1)", false⟩).innerHTML.data.take
      (templateHead false).length = (templateHead false).data ∧
    (attrValueDoubleQuoted
      ((createTaskElement ⟨"1", "x\" onmouseover=\"alert(1)", false⟩).innerHTML.data.drop
        (templateHead false).length)).1 = "x".data ∧
    (attrValueDoubleQuoted
      ((createTaskElement ⟨"1", "x\" onmouseover=\"alert(1)", false⟩).innerHTML.data.drop
        (templateHead false).length)).2.take 26 = " onmouseover=\"alert(1)\">x\"".data := by
  decide

/-! ## Loading -/

/-- C5 at stored texts that are valid JSON of another shape: `loadTasks`
returns `null` for `null`, a number for `5` and an object for an empty
object literal, none of which is a task collection; an absent key, an empty
text and a text that `JSON.parse` rejects give the empty collection. -/
theorem C5_loadTasks_other_shapes :
    loadTasks (some "null") = JSON.null ∧
    loadTasks (some "5") = JSON.num "5" ∧
    loadTasks (some "\x7b\x7d") = JSON.obj [] ∧
    (¬ ∃ ts : List Task, loadTasks (some "null") = tasksToJSON ts) ∧
    loadTasks none = tasksToJSON [] ∧
    loadTasks (some "") = tasksToJSON [] ∧
    loadTasks (some "[1,") = tasksToJSON [] := by
  refine ⟨rfl, rfl, rfl, ?_, rfl, rfl, rfl⟩
  rintro ⟨ts, h⟩
  have h0 : loadTasks (some "null") = JSON.null := rfl
  rw [h0] at h
  cases h

/-! ## Edit session -/

/-- C7 at a session on the record `1` with text `a`: the field is set to
`b`, Escape is delivered and then blur.  The blur listener is still attached
after Escape, so `finish` runs and commits `b` to the collection and to the
stored copy; with Escape alone the collection stays as it was. -/
theorem C7_escape_then_blur_commits :
    openEdit "1" ⟨[⟨"1", "a", false⟩], saveTasks [⟨"1", "a", false⟩]⟩
      = some ⟨"1", "a", true, true⟩ ∧
    (editRun (⟨"1", "a", true, true⟩, ⟨[⟨"1", "a", false⟩], saveTasks [⟨"1", "a", false⟩]⟩)
      [.input "b", .escape, .blur]).2
      = ⟨[⟨"1", "b", false⟩], saveTasks [⟨"1", "b", false⟩]⟩ ∧
    (editRun (⟨"1", "a", true, true⟩, ⟨[⟨"1", "a", false⟩], saveTasks [⟨"1", "a", false⟩]⟩)
      [.input "b", .escape]).2
      = ⟨[⟨"1", "a", false⟩], saveTasks [⟨"1", "a", false⟩]⟩ := by
  decide

/-! ## Round trip through the stored text -/

theorem skipWs_cons (c : Char) (r : List Char) (h : isJsonWs c = false) :
    skipWs (c :: r) = c :: r := by
  simp [skipWs, List.dropWhile, h]

theorem char_of_toNat (c : Char) (n : Nat) (h : c.toNat = n) : c = Char.ofNat n := by
  rw [← h, Char.ofNat_toNat]

theorem hex4_low : ∀ n : Nat, n < 32 →
    hex4 '0' '0' (hexDigit (n / 16)) (hexDigit (n % 16)) = some n := by
  decide

theorem parseStr_cons_plain (c : Char) (r : List Char) (h1 : c ≠ '"') (h2 : c ≠ '\\')
    (h3 : ¬ c.toNat < 32) (s rest : List Char) (h : parseStr r = some (s, rest)) :
    parseStr (c :: r) = some (c :: s, rest) := by
  unfold parseStr at h ⊢
  rw [parseStrFrom.eq_def]
  simp [h1, h2, h3, h, prependTo]

theorem parseStr_cons_esc (e x : Char) (r : List Char) (hu : e ≠ 'u') (he : unescape e = some x)
    (s rest : List Char) (h : parseStr r = some (s, rest)) :
    parseStr ('\\' :: e :: r) = some (x :: s, rest) := by
  unfold parseStr at h ⊢
  rw [parseStrFrom.eq_def]
  simp [hu, he, h, prependTo]

theorem parseStr_cons_u (a b x d : Char) (n : Nat) (r : List Char) (hn : hex4 a b x d = some n)
    (hlt : n < 32) (s rest : List Char) (h : parseStr r = some (s, rest)) :
    parseStr ('\\' :: 'u' :: a :: b :: x :: d :: r) = some (Char.ofNat n :: s, rest) := by
  unfold parseStr at h ⊢
  rw [parseStrFrom.eq_def]
  have g1 : ¬ (55296 ≤ n ∧ n ≤ 56319) := by omega
  have g2 : ¬ (56320 ≤ n ∧ n ≤ 57343) := by omega
  simp [hn, h, prependTo, g1, g2]

theorem parseStr_quoteChar (c : Char) (r s rest : List Char)
    (h : parseStr r = some (s, rest)) :
    parseStr (quoteChar c ++ r) = some (c :: s, rest) := by
  by_cases h1 : c = '"'
  · subst h1
    exact parseStr_cons_esc _ _ r (by decide) (by decide) s rest h
  · by_cases h2 : c = '\\'
    · subst h2
      exact parseStr_cons_esc _ _ r (by decide) (by decide) s rest h
    · by_cases h8 : c.toNat = 8
      · have := char_of_toNat c 8 h8
        subst this
        exact parseStr_cons_esc _ _ r (by decide) (by decide) s rest h
      · by_cases h9 : c.toNat = 9
        · have := char_of_toNat c 9 h9
          subst this
          exact parseStr_cons_esc _ _ r (by decide) (by decide) s rest h
        · by_cases h10 : c.toNat = 10
          · have := char_of_toNat c 10 h10
            subst this
            exact parseStr_cons_esc _ _ r (by decide) (by decide) s rest h
          · by_cases h12 : c.toNat = 12
            · have := char_of_toNat c 12 h12
              subst this
              exact parseStr_cons_esc _ _ r (by decide) (by decide) s rest h
            · by_cases h13 : c.toNat = 13
              · have := char_of_toNat c 13 h13
                subst this
                exact parseStr_cons_esc _ _ r (by decide) (by decide) s rest h
              · by_cases hlt : c.toNat < 32
                · have e : quoteChar c =
                      ['\\', 'u', '0', '0', hexDigit (c.toNat / 16), hexDigit (c.toNat % 16)] := by
                    simp [quoteChar, h1, h2, h8, h9, h10, h12, h13, hlt]
                  rw [e]
                  have := parseStr_cons_u '0' '0' (hexDigit (c.toNat / 16))
                    (hexDigit (c.toNat % 16)) c.toNat r (hex4_low c.toNat hlt) hlt s rest h
                  simpa using this
                · have e : quoteChar c = [c] := by
                    simp [quoteChar, h1, h2, h8, h9, h10, h12, h13, hlt]
                  rw [e]
                  exact parseStr_cons_plain c r h1 h2 hlt s rest h

theorem parseStr_quoted (s rest : List Char) :
    parseStr (s.flatMap quoteChar ++ '"' :: rest) = some (s, rest) := by
  induction s with
  | nil =>
    unfold parseStr
    rw [parseStrFrom.eq_def]
    simp
  | cons c cs ih =>
    rw [List.flatMap_cons, List.append_assoc]
    exact parseStr_quoteChar c _ cs rest ih

theorem parseValue_string (fuel : Nat) (s : String) (rest : List Char) :
    parseValue (fuel + 1) (quoteJSONString s ++ rest) = some (JSON.str s, rest) := by
  rw [parseValue]
  have h := parseStr_quoted s.data rest
  simp [quoteJSONString, skipWs_cons, isJsonWs, h]

theorem parseValue_bool (fuel : Nat) (b : Bool) (rest : List Char) :
    parseValue (fuel + 1) ((if b then "true".data else "false".data) ++ rest)
      = some (JSON.bool b, rest) := by
  rw [parseValue]
  cases b <;> simp [skipWs_cons, isJsonWs, List.isPrefixOf]


theorem parseMembers_more (fuel : Nat) (cs r2 r4 rest k : List Char) (v : JSON)
    (ms : List (String × JSON))
    (hk : parseStr cs = some (k, ':' :: r2))
    (hv : parseValue fuel r2 = some (v, ',' :: r4))
    (hm : parseMembers fuel r4 = some (ms, rest)) :
    parseMembers (fuel + 1) ('"' :: cs) = some ((⟨k⟩, v) :: ms, rest) := by
  rw [parseMembers]
  simp [skipWs_cons, isJsonWs, hk, hv, hm]

theorem parseMembers_last (fuel : Nat) (cs r2 r4 k : List Char) (v : JSON)
    (hk : parseStr cs = some (k, ':' :: r2))
    (hv : parseValue fuel r2 = some (v, '\x7d' :: r4)) :
    parseMembers (fuel + 1) ('"' :: cs) = some ([(⟨k⟩, v)], r4) := by
  rw [parseMembers]
  simp [skipWs_cons, isJsonWs, hk, hv]

theorem parseStr_plain_key (k rest : List Char) (h : k.flatMap quoteChar = k) :
    parseStr (k ++ '"' :: rest) = some (k, rest) := by
  have h2 := parseStr_quoted k rest
  rw [h] at h2
  exact h2

theorem stringifyTask_eq (t : Task) (rest : List Char) :
    stringifyTask t ++ rest =
      '\x7b' :: '"' :: ("id".data ++ '"' :: ':' :: (quoteJSONString t.id ++
        ',' :: '"' :: ("text".data ++ '"' :: ':' :: (quoteJSONString t.text ++
        ',' :: '"' :: ("completed".data ++ '"' :: ':' ::
          ((if t.completed then "true".data else "false".data) ++ '\x7d' :: rest)))))) := by
  have e1 : "\x7b\"id\":".data = '\x7b' :: '"' :: ("id".data ++ ['"', ':']) := rfl
  have e2 : ",\"text\":".data = ',' :: '"' :: ("text".data ++ ['"', ':']) := rfl
  have e3 : ",\"completed\":".data = ',' :: '"' :: ("completed".data ++ ['"', ':']) := rfl
  have e4 : "\x7d".data = ['\x7d'] := rfl
  unfold stringifyTask
  rw [e1, e2, e3, e4]
  simp only [List.append_assoc, List.cons_append, List.nil_append]

theorem parseValue_obj (fuel : Nat) (cs rest : List Char) (ms : List (String × JSON))
    (h : parseMembers fuel ('"' :: cs) = some (ms, rest)) :
    parseValue (fuel + 1) ('\x7b' :: '"' :: cs) = some (JSON.obj (buildProps ms), rest) := by
  rw [parseValue]
  simp [skipWs_cons, isJsonWs, h]

theorem parseValue_task (fuel : Nat) (t : Task) (rest : List Char) :
    parseValue (fuel + 5) (stringifyTask t ++ rest) = some (taskToJSON t, rest) := by
  rw [stringifyTask_eq]
  have h3 := parseMembers_last (fuel + 1) _ _ rest _ _
    (parseStr_plain_key "completed".data _ (by decide))
    (parseValue_bool fuel t.completed ('\x7d' :: rest))
  have h2 := parseMembers_more (fuel + 2) _ _ _ _ _ _ _
    (parseStr_plain_key "text".data _ (by decide))
    (parseValue_string (fuel + 1) t.text _) h3
  have h1 := parseMembers_more (fuel + 3) _ _ _ _ _ _ _
    (parseStr_plain_key "id".data _ (by decide))
    (parseValue_string (fuel + 2) t.id _) h2
  exact parseValue_obj (fuel + 4) _ _ _ h1


theorem parseElements_more (fuel : Nat) (cs r2 rest : List Char) (v : JSON) (vs : List JSON)
    (hv : parseValue fuel cs = some (v, ',' :: r2))
    (hm : parseElements fuel r2 = some (vs, rest)) :
    parseElements (fuel + 1) cs = some (v :: vs, rest) := by
  rw [parseElements]
  simp [skipWs_cons, isJsonWs, hv, hm]

theorem parseElements_last (fuel : Nat) (cs r2 : List Char) (v : JSON)
    (hv : parseValue fuel cs = some (v, ']' :: r2)) :
    parseElements (fuel + 1) cs = some ([v], r2) := by
  rw [parseElements]
  simp [skipWs_cons, isJsonWs, hv]

theorem parseElements_tasks (ts : List Task) (t : Task) (fuel : Nat) (rest : List Char) :
    parseElements (fuel + ts.length + 6) (stringifyElements (t :: ts) ++ ']' :: rest)
      = some ((t :: ts).map taskToJSON, rest) := by
  induction ts generalizing t fuel with
  | nil =>
    exact parseElements_last (fuel + 5) _ rest _ (parseValue_task fuel t (']' :: rest))
  | cons t2 ts ih =>
    have e : stringifyElements (t :: t2 :: ts) ++ ']' :: rest =
        stringifyTask t ++ ',' :: (stringifyElements (t2 :: ts) ++ ']' :: rest) := by
      simp [stringifyElements]
    rw [e]
    have hv := parseValue_task (fuel + ts.length + 1) t
      (',' :: (stringifyElements (t2 :: ts) ++ ']' :: rest))
    exact parseElements_more (fuel + ts.length + 6) _ _ rest _ _ hv (ih t2 fuel)

theorem parseValue_arr (fuel : Nat) (c2 : Char) (r2 rest : List Char) (vs : List JSON)
    (hw : isJsonWs c2 = false) (hne : c2 ≠ ']')
    (h : parseElements fuel (c2 :: r2) = some (vs, rest)) :
    parseValue (fuel + 1) ('[' :: c2 :: r2) = some (JSON.arr vs, rest) := by
  rw [parseValue]
  have e1 : skipWs ('[' :: c2 :: r2) = '[' :: c2 :: r2 := skipWs_cons _ _ (by decide)
  simp only [e1, skipWs_cons c2 r2 hw]
  simp [hne, h]

theorem stringifyElements_head (t : Task) (ts : List Task) (x : List Char) :
    ∃ y, stringifyElements (t :: ts) ++ x = '\x7b' :: y := by
  cases ts with
  | nil =>
    rw [show stringifyElements [t] = stringifyTask t from rfl, stringifyTask_eq]
    exact ⟨_, rfl⟩
  | cons t2 ts =>
    rw [show stringifyElements (t :: t2 :: ts) =
      stringifyTask t ++ ',' :: stringifyElements (t2 :: ts) from rfl, List.append_assoc,
      stringifyTask_eq]
    exact ⟨_, rfl⟩

theorem stringifyElements_length (ts : List Task) :
    ts.length ≤ (stringifyElements ts).length := by
  induction ts with
  | nil => simp [stringifyElements]
  | cons t ts ih =>
    cases ts with
    | nil => simp [stringifyElements, stringifyTask]
    | cons t2 ts =>
      have e : stringifyElements (t :: t2 :: ts) =
          stringifyTask t ++ ',' :: stringifyElements (t2 :: ts) := rfl
      rw [e]
      simp only [List.length_append, List.length_cons] at ih ⊢
      omega

theorem parseValue_tasks (ts : List Task) (fuel : Nat) (rest : List Char)
    (hf : ts.length + 6 ≤ fuel) :
    parseValue fuel ('[' :: (stringifyElements ts ++ ']' :: rest))
      = some (tasksToJSON ts, rest) := by
  obtain ⟨k, rfl⟩ := Nat.exists_eq_add_of_le hf
  cases ts with
  | nil =>
    show parseValue (0 + 6 + k) _ = _
    have e : 0 + 6 + k = (k + 5) + 1 := by omega
    rw [e, parseValue]
    simp [stringifyElements, skipWs_cons, isJsonWs, tasksToJSON]
  | cons t ts =>
    obtain ⟨y, hy⟩ := stringifyElements_head t ts (']' :: rest)
    have h := parseElements_tasks ts t k rest
    rw [hy] at h ⊢
    have e : (t :: ts).length + 6 + k = (k + ts.length + 6) + 1 := by
      simp only [List.length_cons]; omega
    rw [e]
    exact parseValue_arr _ _ _ _ _ (by decide) (by decide) h

theorem parse_stringifyTasks (ts : List Task) :
    JSON.parse (stringifyTasks ts) = some (tasksToJSON ts) := by
  have hl : (stringifyTasks ts).length = (stringifyElements ts).length + 2 := by
    show ('[' :: (stringifyElements ts ++ [']'])).length = _
    simp
  have hlen := stringifyElements_length ts
  have h := parseValue_tasks ts (2 * (stringifyTasks ts).length + 2) [] (by omega)
  unfold JSON.parse
  show (match parseValue (2 * (stringifyTasks ts).length + 2)
      ('[' :: (stringifyElements ts ++ [']'])) with
    | some (v, rest) => if skipWs rest = [] then some v else none
    | none => none) = _
  rw [h]
  simp [skipWs]

theorem load_save (ts : List Task) : loadTasks (saveTasks ts) = tasksToJSON ts := by
  have hne : stringifyTasks ts ≠ "" := by
    intro h
    have := congrArg String.data h
    simp [stringifyTasks] at this
  simp [loadTasks, saveTasks, hne, parse_stringifyTasks]

theorem taskToJSON_injective : Function.Injective taskToJSON := by
  intro a b h
  obtain ⟨i, x, c⟩ := a
  obtain ⟨j, y, d⟩ := b
  simp [taskToJSON] at h
  obtain ⟨h1, h2, h3⟩ := h
  subst h1 h2 h3
  rfl

theorem tasksToJSON_injective : Function.Injective tasksToJSON := by
  intro a b h
  simp only [tasksToJSON, JSON.arr.injEq] at h
  exact List.map_injective_iff.mpr taskToJSON_injective h

theorem step_storage (app : App) (op : Op) (h : op.mutates = true) :
    (step app op).storage = saveTasks (step app op).tasks := by
  cases op with
  | add now rnd text =>
    have ht : trim text ≠ "" := by simpa [Op.mutates] using h
    simp [step, addTaskFromInput, ht]
  | toggle id => rfl
  | setText id text =>
    have ht : trim text ≠ "" := by simpa [Op.mutates] using h
    simp [step, finish, ht]
  | remove id => rfl
  | clearCompleted => rfl
  | clearAll confirmed =>
    have hc : confirmed = true := by simpa [Op.mutates] using h
    subst hc
    rfl

/-- C6: after an add with non-blank text, a toggle, a remove, a
clear-completed, a confirmed clear-all and an edit commit with non-blank
text, on every starting state, `loadTasks` applied to the stored text gives
the in-memory collection: the array of its records in order, each with its
id, text and completed flag, and no other collection has that value. -/
theorem C6_persisted_equals_memory (app : App) (op : Op) (h : op.mutates = true) :
    loadTasks (step app op).storage = tasksToJSON (step app op).tasks ∧
    (∀ ts : List Task, loadTasks (step app op).storage = tasksToJSON ts →
      ts = (step app op).tasks) := by
  have h1 : loadTasks (step app op).storage = tasksToJSON (step app op).tasks := by
    rw [step_storage app op h]
    exact load_save _
  refine ⟨h1, ?_⟩
  intro ts hts
  rw [h1] at hts
  exact (tasksToJSON_injective hts).symm

/-- C6 at a toggle on a stale two-record state whose stored text is absent. -/
theorem C6_persisted_equals_memory_witness :
    Op.mutates (.toggle "a") = true ∧
    loadTasks (step ⟨[⟨"a", "x \"y\"", false⟩, ⟨"b", "z", true⟩], none⟩ (.toggle "a")).storage
      = tasksToJSON [⟨"a", "x \"y\"", true⟩, ⟨"b", "z", true⟩] :=
  ⟨rfl, (C6_persisted_equals_memory ⟨[⟨"a", "x \"y\"", false⟩, ⟨"b", "z", true⟩], none⟩
    (.toggle "a") rfl).1⟩

end TodoApp
